import Mathlib

/-!
Verification development for the structural-retrieval pipeline of the
`keywords-hackathon` repository (backend of a research-analogy engine).

The Python source is shallowly embedded here:
* text is modelled as `List Char` (Python string indices are code-point
  indices), with Python slice / `str.rfind` / `str.strip` semantics made
  explicit (`pySlice`, `pyRfind`, `pyStrip`), including the normalisation
  of negative indices;
* `PDFProcessor._chunk_text`, whose `while` loop need not terminate, is
  embedded with explicit fuel (`chunkLoop`): a `none` result for every
  fuel value is the embedding of a diverging run;
* floating-point vectors are modelled as rational vectors; the ordering
  used by the ranker's sort is captured exactly by the rational key
  `simKey` (a strictly monotone image of the cosine similarity for the
  candidates that survive the positive-norm guard), and the reported
  floating-point cosine score is read off as the real number
  `cosineScore`;
* the Supabase / LLM / embedding collaborators are oracles, passed in as
  function arguments (e.g. the insert operations of `_store_paper`).
-/

/-! ### Python string primitives -/

/-- The whitespace test of Python's `str.strip()` (ASCII part). -/
def pyIsSpace (c : Char) : Bool :=
  c == ' ' || c == '\t' || c == '\n' || c == '\r' || c == '\x0b' || c == '\x0c'

/-- Python `str.strip()` on a list of characters. -/
def pyStrip (l : List Char) : List Char :=
  ((l.dropWhile pyIsSpace).reverse.dropWhile pyIsSpace).reverse

/-- Normalisation of a Python slice index against a length `n`:
negative indices count from the end ( clamped at 0 ), positive ones are
clamped at `n`. -/
def pyIdx (n : Nat) (i : Int) : Nat :=
  if i < 0 then ((n : Int) + i).toNat else min i.toNat n

/-- Python `text[a:b]` on a list of characters. -/
def pySlice (l : List Char) (a b : Int) : List Char :=
  (l.take (pyIdx l.length b)).drop (pyIdx l.length a)

/-- Largest `i ≤ n` with `p i = true`, scanning downward (helper for
`pyRfind`). -/
def rfindDown (p : Nat → Bool) : Nat → Option Nat
  | 0 => if p 0 then some 0 else none
  | n + 1 => if p (n + 1) then some (n + 1) else rfindDown p n

/-- Python `text.rfind(sub, a, b)`: the largest index `i` with
`a' ≤ i`, `i + sub.length ≤ b'` (`a'`, `b'` the normalised bounds) at
which `sub` occurs in `text`, and `-1` if there is none. -/
def pyRfind (text sub : List Char) (a b : Int) : Int :=
  let a' := pyIdx text.length a
  let b' := pyIdx text.length b
  if sub.length ≤ b' then
    match rfindDown (fun i => decide (a' ≤ i) && sub.isPrefixOf (text.drop i)) (b' - sub.length) with
    | some i => (i : Int)
    | none => -1
  else -1

/-! ### Chunker (`PDFProcessor._chunk_text`) -/

/-- The sentence-ending markers of `_chunk_text`, in the order the
source iterates over them. -/
def markers : List (List Char) :=
  [['.', ' '], ['.', '\n'], ['!', ' '], ['!', '\n'], ['?', ' '], ['?', '\n']]

/-- The `for punct in [...]` loop of `_chunk_text`: the first marker (in
list order) found by `rfind` in the window `[start, e0)` moves the window
end to just after its last occurrence; the loop `break`s there, so later
markers are not consulted. If no marker is found the window end stays. -/
def puncScan (text : List Char) (start e0 : Int) : List (List Char) → Int
  | [] => e0
  | m :: ms =>
    if pyRfind text m start e0 ≠ -1 then pyRfind text m start e0 + 2
    else puncScan text start e0 ms

/-- One pass of the `while start < len(text)` loop of `_chunk_text`,
with explicit fuel. A `none` result means the fuel ran out, i.e. the
run was still going; `chunkLoop ... fuel = none` for every `fuel` is how
a diverging run shows up in the embedding. -/
def chunkLoop (text : List Char) (csize overlap : Nat) : Nat → Int → List (List Char) → Option (List (List Char))
  | 0, _, _ => none
  | fuel + 1, start, acc =>
    if start < (text.length : Int) then
      let e0 : Int := start + (csize : Int)
      let e1 : Int := if e0 < (text.length : Int) then puncScan text start e0 markers else e0
      let chunk := pyStrip (pySlice text start e1)
      chunkLoop text csize overlap fuel (e1 - (overlap : Int)) (if chunk.isEmpty then acc else acc ++ [chunk])
    else some acc

/-- `PDFProcessor._chunk_text(text, chunk_size, overlap)` with fuel. -/
def chunkText (text : List Char) (csize overlap : Nat) (fuel : Nat) : Option (List (List Char)) :=
  chunkLoop text csize overlap fuel 0 []

/-- Occurrence of the marker `m` at position `i` inside the window
`[a, b)` of `text` (the marker must fit entirely inside the window, as
with Python's `rfind(sub, a, b)`). -/
def occursAt (text m : List Char) (a b i : Nat) : Prop :=
  a ≤ i ∧ i + m.length ≤ b ∧ m.isPrefixOf (text.drop i)

/-- Modelled from the spec sentence behind claim C4 ("the occurrence
nearest to the window's right edge ... the latest such occurrence over
all six marker kinds"): the window end preferred by the claim, namely
two past the maximum of the six `rfind` results. This is the
spec-side definition to compare `puncScan` against. -/
def specSentenceBreak (text : List Char) (start e0 : Int) : Int :=
  let best := (markers.map (fun m => pyRfind text m start e0)).foldl max (-1)
  if best ≠ -1 then best + 2 else e0

/-! ### PDF text extraction (`PDFProcessor.extract_text_from_pdf`) -/

/-- Python `"\n\n".join(parts)` generalised to an arbitrary separator. -/
def joinSep (sep : List Char) : List (List Char) → List Char
  | [] => []
  | [x] => x
  | x :: y :: ys => x ++ sep ++ joinSep sep (y :: ys)

/-- The page loop of `extract_text_from_pdf`: keep the per-page texts the
PDF library returned, dropping pages whose extracted text is falsy
(`None` or empty). The page texts themselves are the output of the PDF
library, an external oracle, so they are a parameter here. -/
def pageParts (pages : List (Option (List Char))) : List (List Char) :=
  pages.filterMap fun pt =>
    match pt with
    | some t => if t.isEmpty then none else some t
    | none => none

/-- `full_text = "\n\n".join(text_parts)`. -/
def fullTextOfPages (pages : List (Option (List Char))) : List Char :=
  joinSep ['\n', '\n'] (pageParts pages)

/-- `PDFProcessor._extract_title_from_text`: the first of the first ten
lines whose stripped form has length in `(10, 200)`, stripped; the fixed
fallback title otherwise. -/
def extractTitleFromText (text : List Char) : List Char :=
  match ((text.splitOn '\n').take 10).find?
      (fun line => decide (10 < (pyStrip line).length ∧ (pyStrip line).length < 200)) with
  | some line => pyStrip line
  | none => "Untitled Paper".toList

/-- Result record of `extract_text_from_pdf`. -/
structure ExtractResult where
  text : List Char
  chunks : List (List Char)
  title : List Char
deriving DecidableEq

/-- `PDFProcessor.extract_text_from_pdf` after the PDF library produced
`pages` (the guard and everything after it are identical on the
pdfplumber path and the PyPDF2 fallback path, so the choice of library
is folded into the `pages` oracle). `none` models a run that never
returns because the chunker ran out of fuel (diverged). -/
def extractTextFromPdf (pages : List (Option (List Char))) (title : List Char) (fuel : Nat) :
    Option (Except String ExtractResult) :=
  let full_text := fullTextOfPages pages
  if full_text.isEmpty ∨ (pyStrip full_text).length < 100 then
    some (.error "PDF appears to be empty or unreadable")
  else
    (chunkText full_text 2000 200 fuel).map fun chunks =>
      .ok ⟨full_text, chunks, if title.isEmpty then extractTitleFromText full_text else title⟩

/-! ### Schema default-fill (`KeywordsGateway.structural_abstraction`) -/

/-- A JSON value as far as the nine-field schema is concerned: the
declared field types are strings and arrays of strings. -/
inductive JVal where
  | str (s : String)
  | arr (l : List String)
deriving DecidableEq

/-- The `required_fields` list of `structural_abstraction`. -/
def requiredFields : List String :=
  ["system_name", "domain", "entities", "state_variables", "optimization_goal",
   "constraints", "failure_modes", "key_equations_or_principles", "plain_language_summary"]

/-- Field lookup in the parsed JSON object (`field in schema` /
`schema[field]`). -/
def lookupField (s : List (String × JVal)) (k : String) : Option JVal :=
  (s.find? (fun kv => kv.1 == k)).map (·.2)

/-- Python `schema.get(field, "")`. -/
def pyGetField (s : List (String × JVal)) (k : String) : JVal :=
  (lookupField s k).getD (JVal.str "")

/-- Python `isinstance(v, str)` on a schema value. -/
def isinstanceStr : JVal → Bool
  | .str _ => true
  | .arr _ => false

/-- The default-fill loop of `structural_abstraction`:
`for field in required_fields: if field not in schema:
schema[field] = "" if isinstance(schema.get(field, ""), str) else []`. -/
def fillRequiredFields (s : List (String × JVal)) : List (String × JVal) :=
  requiredFields.foldl
    (fun acc f =>
      if (lookupField acc f).isSome then acc
      else acc ++ [(f, if isinstanceStr (pyGetField acc f) then JVal.str "" else JVal.arr [])])
    s

/-! ### Schema-to-text projection (`EmbeddingService.embed_schema`) -/

/-- The nine-field structural schema as the ranking and embedding code
reads it: every field is read with `schema.get(...)`, so each one may be
absent. -/
structure Schema where
  system_name : Option String := none
  domain : Option String := none
  entities : Option (List String) := none
  state_variables : Option (List String) := none
  optimization_goal : Option String := none
  constraints : Option (List String) := none
  failure_modes : Option (List String) := none
  key_equations_or_principles : Option (List String) := none
  plain_language_summary : Option String := none
deriving DecidableEq

/-- The canonical embedding text built by `embed_schema` and handed to
the embedding oracle: the four key fields rendered into the fixed
template, a missing goal read as `""` and missing lists as `[]`
(`schema.get("optimization_goal", "")`, `schema.get("constraints", [])`,
...), lists joined with `", "`. -/
def embedSchemaText (s : Schema) : String :=
  let og := s.optimization_goal.getD ""
  let cs := String.intercalate ", " (s.constraints.getD [])
  let sv := String.intercalate ", " (s.state_variables.getD [])
  let fm := String.intercalate ", " (s.failure_modes.getD [])
  "Optimization Goal: " ++ og ++ "\nConstraints: " ++ cs ++
    "\nState Variables: " ++ sv ++ "\nFailure Modes: " ++ fm

/-! ### Similarity ranker (`ResearchAgent.find_analogous_papers`) -/

/-- `np.dot` on the embedded rational vectors (the source's floats are
modelled as exact rationals). -/
def npDot : List ℚ → List ℚ → ℚ
  | x :: xs, y :: ys => x * y + npDot xs ys
  | _, _ => 0

/-- A row of the `papers` table as `find_analogous_papers` reads it:
every field except the primary key is accessed with `.get(...)`.
`structuralEmbedding` holds the already-decoded vector (the source
`json.loads`-decodes a string-serialised vector before use; `none` also
stands for the Python-falsy stored values). -/
structure PaperRow where
  id : String
  title : Option String := none
  domain : Option String := none
  structuralSchema : Option Schema := none
  structuralEmbedding : Option (List ℚ) := none
deriving DecidableEq

/-- One entry of the `similarities` list: the paper together with the
exact data `np.dot(query, paper)` and `‖paper‖²` that determine its
cosine similarity to the query. -/
structure Cand where
  paper : PaperRow
  simDot : ℚ
  simNrm : ℚ
deriving DecidableEq

/-- The `if exclude_domain:` filter of `find_analogous_papers`; note the
Python truthiness test, under which `exclude_domain = ""` disables the
filter entirely. -/
def filteredPapers (papers : List PaperRow) (excl : Option String) : List PaperRow :=
  match excl with
  | some s => if s ≠ "" then papers.filter (fun p => p.domain != some s) else papers
  | none => papers

/-- One pass of the similarity loop for a single row: skip it if the
stored embedding is falsy (absent or the empty vector), skip it unless
both norms are positive (`norm_query > 0 and norm_paper > 0` holds
exactly when both squared norms are positive), and otherwise record the
similarity data. -/
def eligEntry (q : List ℚ) (p : PaperRow) : Option Cand :=
  p.structuralEmbedding.bind fun v =>
    if v.isEmpty then none
    else if 0 < npDot q q ∧ 0 < npDot v v then some ⟨p, npDot q v, npDot v v⟩
    else none

/-- The `similarities` list of `find_analogous_papers`. -/
def eligibleCands (q : List ℚ) (papers : List PaperRow) : List Cand :=
  papers.filterMap (eligEntry q)

/-- Exact sort key: a strictly increasing rational image of the cosine
similarity `simDot / (‖query‖·‖paper‖)` over the candidates that passed
the positive-norm guard (the query norm is a common positive factor, so
it does not affect the order; the sign-split square is strictly
monotone). Sorting by `simKey` descending therefore is exactly the
source's `sort(key=similarity, reverse=True)`. -/
def simKey (c : Cand) : ℚ :=
  if 0 ≤ c.simDot then c.simDot ^ 2 / c.simNrm else -(c.simDot ^ 2 / c.simNrm)

/-- The descending-similarity order used by the sort. -/
def rankRel (c₁ c₂ : Cand) : Prop := simKey c₂ ≤ simKey c₁

instance : DecidableRel rankRel := fun a b => inferInstanceAs (Decidable (simKey b ≤ simKey a))

instance : IsTotal Cand rankRel := ⟨fun a b => le_total (simKey b) (simKey a)⟩

instance : IsTrans Cand rankRel := ⟨fun _ _ _ h₁ h₂ => le_trans h₂ h₁⟩

/-- Python `l[:k]` (`similarities[:top_k]`), including the semantics of
a negative bound. -/
def pySliceTo (k : Int) (l : List α) : List α := l.take (pyIdx l.length k)

/-- One element of the returned list: the projection built by the final
list comprehension of `find_analogous_papers`, with the reported float
`similarity_score` carried as its exact determining data
(`simDot`, `simNrm`); see `cosineScore`. -/
structure MatchOut where
  paper_id : String
  title : Option String
  domain : Option String
  schema : Option Schema
  simDot : ℚ
  simNrm : ℚ
deriving DecidableEq

/-- The final projection of `find_analogous_papers`. -/
def toMatchOut (c : Cand) : MatchOut :=
  ⟨c.paper.id, c.paper.title, c.paper.domain, c.paper.structuralSchema, c.simDot, c.simNrm⟩

/-- `ResearchAgent.find_analogous_papers` after the query embedding `q`
has been produced by the embedding oracle and the corpus `papers` has
been loaded from the store: domain filter, similarity computation with
the positive-norm guard, stable descending sort (`list.sort` is stable;
`List.insertionSort` with this order places earlier-corpus candidates
before later tied ones, exactly as Python does), then `[:top_k]`. -/
def findAnalogousPapers (q : List ℚ) (papers : List PaperRow) (topK : Int) (excl : Option String) :
    List MatchOut :=
  (pySliceTo topK (List.insertionSort rankRel (eligibleCands q (filteredPapers papers excl)))).map
    toMatchOut

/-- The floating-point cosine similarity the source reports, read as the
real number it approximates: `dot / (√nq · √nv)`. -/
noncomputable def cosineScore (nq d nv : ℚ) : ℝ :=
  (d : ℝ) / (Real.sqrt (nq : ℝ) * Real.sqrt (nv : ℝ))

/-! ### Storage (`ResearchAgent._store_paper`, `ResearchAgent._store_chunks`) -/

/-- The `structural_embedding` column value: either the vector itself or
its textual fallback encoding. -/
inductive EmbVal where
  | vec (v : List ℚ)
  | txt (s : String)
deriving DecidableEq

/-- The row `_store_paper` inserts (the wall-clock `processed_at`
timestamp is outside the model). -/
structure PaperData where
  id : String
  title : String
  domain : String
  source : String
  source_id : Option String
  structural_schema : Schema
  structural_embedding : EmbVal
deriving DecidableEq

/-- The fallback encoding `"[" + ",".join(map(str, embedding)) + "]"`. -/
def embeddingStr (e : List ℚ) : String :=
  "[" ++ String.intercalate "," (e.map toString) ++ "]"

/-- The `paper_data` row `_store_paper` first tries to insert, with the
embedding passed as a vector. -/
def primaryPaperData (paper_id title domain source : String) (source_id : Option String)
    (schema : Schema) (embedding : List ℚ) : PaperData :=
  ⟨paper_id, title, domain, source, source_id, schema, EmbVal.vec embedding⟩

/-- The row of the retry inside `except`: the same `paper_data` with
`structural_embedding` replaced by the textual literal. -/
def fallbackPaperData (paper_id title domain source : String) (source_id : Option String)
    (schema : Schema) (embedding : List ℚ) : PaperData :=
  { primaryPaperData paper_id title domain source source_id schema embedding with
      structural_embedding := EmbVal.txt (embeddingStr embedding) }

/-- `ResearchAgent._store_paper` over an insert oracle `ins` (`none` =
the insert succeeded, `some e` = it raised `e`). Returns the outcome
together with the list of insert calls actually made, in order. -/
def storePaper (ins : PaperData → Option String) (paper_id title domain source : String)
    (source_id : Option String) (schema : Schema) (embedding : List ℚ) :
    Except String Unit × List PaperData :=
  let paper_data := primaryPaperData paper_id title domain source source_id schema embedding
  match ins paper_data with
  | none => (.ok (), [paper_data])
  | some _ =>
    let retry_data := fallbackPaperData paper_id title domain source source_id schema embedding
    match ins retry_data with
    | none => (.ok (), [paper_data, retry_data])
    | some e2 => (.error e2, [paper_data, retry_data])

/-- A row of the `paper_chunks` table. -/
structure ChunkRow where
  paper_id : String
  chunk_index : Nat
  text_content : List Char
deriving DecidableEq

/-- `ResearchAgent._store_chunks` over a batch-insert oracle: one batch
insert when there are chunks, no `try`/`except` around it. Returns the
outcome together with the list of batch-insert calls made. -/
def storeChunks (ins : List ChunkRow → Option String) (paper_id : String)
    (chunks : List (List Char)) : Except String Unit × List (List ChunkRow) :=
  let chunks_data := chunks.enum.map fun ic => ChunkRow.mk paper_id ic.1 ic.2
  if chunks_data.isEmpty then (.ok (), [])
  else
    match ins chunks_data with
    | none => (.ok (), [chunks_data])
    | some e => (.error e, [chunks_data])

/-! ### General lemmas about the embedded primitives -/

/-- A list with at least one non-whitespace character does not strip to
the empty list. -/
theorem pyStrip_ne_nil {text : List Char} (h : ∃ c ∈ text, pyIsSpace c = false) :
    pyStrip text ≠ [] := by
  obtain ⟨c, hmem, hns⟩ := h
  intro hnil
  have h1 : List.dropWhile pyIsSpace (List.dropWhile pyIsSpace text).reverse = [] := by
    have := congrArg List.reverse hnil
    simpa [pyStrip] using this
  have h2 : ∀ x ∈ (List.dropWhile pyIsSpace text).reverse, pyIsSpace x = true :=
    List.dropWhile_eq_nil_iff.mp h1
  have hcdrop : c ∈ List.dropWhile pyIsSpace text := by
    have hsplit := List.takeWhile_append_dropWhile (p := pyIsSpace) (l := text)
    rw [← hsplit] at hmem
    rcases List.mem_append.mp hmem with h | h
    · exact absurd (List.mem_takeWhile_imp h) (by simp [hns])
    · exact h
  have := h2 c (List.mem_reverse.mpr hcdrop)
  simp [hns] at this

/-- What a successful downward scan returns: a witness of the predicate
that is maximal within the scanned range. -/
theorem rfindDown_some {p : ℕ → Bool} : ∀ {n i : ℕ}, rfindDown p n = some i →
    p i = true ∧ i ≤ n ∧ ∀ j, j ≤ n → p j = true → j ≤ i := by
  intro n
  induction n with
  | zero =>
    intro i h
    by_cases hp : p 0 = true
    · simp [rfindDown, hp] at h
      subst h
      exact ⟨hp, le_refl 0, fun j hj _ => hj⟩
    · simp [rfindDown, hp] at h
  | succ n ih =>
    intro i h
    by_cases hp : p (n + 1) = true
    · simp [rfindDown, hp] at h
      subst h
      exact ⟨hp, le_refl _, fun j hj _ => hj⟩
    · simp [rfindDown, hp] at h
      obtain ⟨hpi, hin, hmax⟩ := ih h
      refine ⟨hpi, hin.trans (Nat.le_succ n), fun j hj hpj => ?_⟩
      by_cases hjn : j = n + 1
      · exact absurd (hjn ▸ hpj) hp
      · exact hmax j (by omega) hpj

/-- A failed downward scan means the predicate holds nowhere in the
scanned range. -/
theorem rfindDown_none {p : ℕ → Bool} : ∀ {n : ℕ}, rfindDown p n = none →
    ∀ j, j ≤ n → p j = false := by
  intro n
  induction n with
  | zero =>
    intro h j hj
    interval_cases j
    by_cases hp : p 0 = true
    · simp [rfindDown, hp] at h
    · simpa using hp
  | succ n ih =>
    intro h j hj
    by_cases hp : p (n + 1) = true
    · simp [rfindDown, hp] at h
    · simp [rfindDown, hp] at h
      rcases Nat.le_succ_iff.mp hj with hj' | hj'
      · exact ih h j hj'
      · subst hj'
        simpa using hp

/-- Correctness of the embedded `rfind` on in-range natural bounds:
either it reports `-1` and the substring occurs nowhere in the window,
or it returns the largest occurrence position in the window. -/
theorem pyRfind_spec (text m : List Char) (a b : ℕ) (ha : a ≤ text.length)
    (hb : b ≤ text.length) :
    (pyRfind text m (a : ℤ) (b : ℤ) = -1 ∧ ∀ i, ¬ occursAt text m a b i) ∨
    (∃ i : ℕ, pyRfind text m (a : ℤ) (b : ℤ) = (i : ℤ) ∧ occursAt text m a b i ∧
      ∀ j, occursAt text m a b j → j ≤ i) := by
  have hia : pyIdx text.length (a : ℤ) = a := by
    unfold pyIdx
    rw [if_neg (by omega)]
    omega
  have hib : pyIdx text.length (b : ℤ) = b := by
    unfold pyIdx
    rw [if_neg (by omega)]
    omega
  by_cases hmb : m.length ≤ b
  · rcases hr : rfindDown (fun i => decide (a ≤ i) && m.isPrefixOf (text.drop i)) (b - m.length)
      with _ | i
    · left
      constructor
      · simp only [pyRfind, hia, hib]
        rw [if_pos hmb, hr]
      · intro i ⟨hai, hib', hpre⟩
        have hfalse := rfindDown_none hr i (by omega)
        simp only [Bool.and_eq_false_iff, decide_eq_false_iff_not] at hfalse
        rcases hfalse with h | h
        · exact h hai
        · simp [hpre] at h
    · right
      obtain ⟨hpi, hile, hmax⟩ := rfindDown_some hr
      simp only [Bool.and_eq_true, decide_eq_true_eq] at hpi
      refine ⟨i, ?_, ⟨hpi.1, by omega, hpi.2⟩, fun j ⟨haj, hjb, hjpre⟩ => ?_⟩
      · simp only [pyRfind, hia, hib]
        rw [if_pos hmb, hr]
      · exact hmax j (by omega) (by simp [haj, hjpre])
  · left
    constructor
    · simp only [pyRfind, hia, hib]
      rw [if_neg hmb]
    · intro i ⟨_, hib', _⟩
      omega

/-- Markers in which `rfind` finds nothing are skipped by the marker
loop. -/
theorem puncScan_skip (text : List Char) (s e : ℤ) (ms₁ rest : List (List Char))
    (h : ∀ m' ∈ ms₁, pyRfind text m' s e = -1) :
    puncScan text s e (ms₁ ++ rest) = puncScan text s e rest := by
  induction ms₁ with
  | nil => rfl
  | cons m ms ih =>
    have hm := h m (List.mem_cons_self m ms)
    simp only [List.cons_append, puncScan]
    rw [if_neg (by simp [hm])]
    exact ih fun m' hm' => h m' (List.mem_cons_of_mem _ hm')

/-- A vector's dot product with itself is nonnegative. -/
theorem npDot_self_nonneg (v : List ℚ) : 0 ≤ npDot v v := by
  induction v with
  | nil => simp [npDot]
  | cons x xs ih =>
    simp only [npDot]
    nlinarith [mul_self_nonneg x, ih]

/-- Cauchy-Schwarz for the embedded dot product (over vectors of any
lengths, since `npDot` zips). -/
theorem npDot_sq_le (a : List ℚ) : ∀ b : List ℚ, (npDot a b) ^ 2 ≤ npDot a a * npDot b b := by
  induction a with
  | nil =>
    intro b
    simp [npDot]
  | cons x xs ih =>
    intro b
    cases b with
    | nil => simp [npDot]
    | cons y ys =>
      have IH := ih ys
      have hA := npDot_self_nonneg xs
      have hB := npDot_self_nonneg ys
      simp only [npDot]
      rcases eq_or_lt_of_le hA with hA0 | hA0
      · have hs2 : npDot xs ys ^ 2 ≤ 0 := by nlinarith [IH]
        have hs : npDot xs ys = 0 := by nlinarith [sq_nonneg (npDot xs ys)]
        rw [hs, ← hA0]
        nlinarith [mul_nonneg (mul_self_nonneg x) hB]
      · nlinarith [sq_nonneg (x * npDot xs ys - y * npDot xs xs), IH, hA0.le,
          sq_nonneg x, mul_nonneg (sq_nonneg x) (sub_nonneg.mpr IH)]

/-- The domain filter only removes rows. -/
theorem filteredPapers_subset (papers : List PaperRow) (excl : Option String) :
    filteredPapers papers excl ⊆ papers := by
  cases excl with
  | none => exact fun p hp => hp
  | some s =>
    by_cases hs : s ≠ ""
    · simp only [filteredPapers, if_pos hs]
      exact fun p hp => List.mem_of_mem_filter hp
    · simp only [filteredPapers, if_neg hs]
      exact fun p hp => hp

/-- A row that is not domain-excluded survives the filter. -/
theorem mem_filteredPapers {papers : List PaperRow} {excl : Option String} {p : PaperRow}
    (hp : p ∈ papers) (hd : ∀ s, excl = some s → p.domain ≠ some s) :
    p ∈ filteredPapers papers excl := by
  cases excl with
  | none => exact hp
  | some s =>
    by_cases hs : s ≠ ""
    · simp only [filteredPapers, if_pos hs]
      exact List.mem_filter.mpr ⟨hp, by simp [hd s rfl]⟩
    · simpa only [filteredPapers, if_neg hs] using hp

/-- With a nonempty exclusion string, every row surviving the filter has
a different domain label. -/
theorem domain_of_mem_filtered {papers : List PaperRow} {s : String} (hs : s ≠ "")
    {p : PaperRow} (hp : p ∈ filteredPapers papers (some s)) : p.domain ≠ some s := by
  simp only [filteredPapers, if_pos hs] at hp
  have := (List.mem_filter.mp hp).2
  simpa using this

/-- Membership in the similarity list, unfolded: exactly the rows with a
present nonempty decoded vector and positive norms on both sides, paired
with their similarity data. -/
theorem mem_eligibleCands {q : List ℚ} {papers : List PaperRow} {c : Cand} :
    c ∈ eligibleCands q papers ↔
      ∃ p ∈ papers, ∃ v, p.structuralEmbedding = some v ∧ v ≠ [] ∧
        0 < npDot q q ∧ 0 < npDot v v ∧ c = ⟨p, npDot q v, npDot v v⟩ := by
  constructor
  · intro hc
    obtain ⟨p, hp, hf⟩ := List.mem_filterMap.mp hc
    rcases hemb : p.structuralEmbedding with _ | v
    · rw [eligEntry, hemb] at hf
      exact absurd hf (by simp)
    · rw [eligEntry, hemb, Option.some_bind] at hf
      by_cases hve : v.isEmpty
      · rw [if_pos hve] at hf
        exact absurd hf (by simp)
      · rw [if_neg hve] at hf
        by_cases hpos : 0 < npDot q q ∧ 0 < npDot v v
        · rw [if_pos hpos] at hf
          exact ⟨p, hp, v, hemb, by simpa using hve, hpos.1, hpos.2,
            (Option.some_injective _ hf).symm⟩
        · rw [if_neg hpos] at hf
          exact absurd hf (by simp)
  · rintro ⟨p, hp, v, hemb, hvne, hq, hv, rfl⟩
    refine List.mem_filterMap.mpr ⟨p, hp, ?_⟩
    rw [eligEntry, hemb, Option.some_bind, if_neg (by simpa using hvne), if_pos ⟨hq, hv⟩]

/-- The head of the sorted similarity list bears a maximal key. -/
theorem head_simKey_max {l : List Cand} {c : Cand} {rest : List Cand}
    (h : List.insertionSort rankRel l = c :: rest) :
    ∀ d ∈ l, simKey d ≤ simKey c := by
  intro d hd
  have hmem : d ∈ List.insertionSort rankRel l := (List.mem_insertionSort rankRel).mpr hd
  rw [h] at hmem
  rcases List.mem_cons.mp hmem with hdc | hdrest
  · exact hdc ▸ le_refl _
  · have hsorted := List.sorted_insertionSort rankRel l
    rw [h] at hsorted
    exact List.rel_of_sorted_cons hsorted d hdrest

/-! ### Claims C1, C3, C4: the chunker -/

/-- The eight-character text ". bbbbbb" on which `_chunk_text` with
`chunk_size = 4`, `overlap = 2` loops forever. -/
def divergeText : List Char := ['.', ' ', 'b', 'b', 'b', 'b', 'b', 'b']

/-- On `divergeText` with `chunk_size = 4` and `overlap = 2` one loop
pass maps cursor 0 back to cursor 0 (the ". " at position 0 pulls the
window end to 2, and 2 - overlap = 0), appending "." to the
accumulator. -/
theorem chunkLoop_divergeText (fuel : ℕ) : ∀ acc, chunkLoop divergeText 4 2 fuel 0 acc = none := by
  induction fuel with
  | zero => intro acc; rfl
  | succ n ih =>
    intro acc
    have step : chunkLoop divergeText 4 2 (n + 1) 0 acc
        = chunkLoop divergeText 4 2 n 0 (acc ++ [['.']]) := rfl
    rw [step]
    exact ih _

/-- C1: the claim that `_chunk_text` terminates for every text whenever
`0 ≤ overlap < chunk_size` and `chunk_size > 0` is false of the code;
this is a bug in the code (the spec states termination as the intent).
On the text ". bbbbbb" with `chunk_size = 4`, `overlap = 2` (which
satisfy the claim's precondition) the cursor is reset to
`0 + 2 - 2 = 0` on every pass, because `rfind` keeps finding ". " at
position `start`, so the loop never exits: in the fuelled embedding the
run exhausts every fuel bound. The same cycle arises with the default
parameters 2000/200 on any text whose last ". " inside the first window
sits at position 198. -/
theorem chunkText_diverges_on_marker_cycle : ∀ fuel, chunkText divergeText 4 2 fuel = none :=
  fun fuel => chunkLoop_divergeText fuel []

/-- C3: counterexample. The claim says every non-whitespace text shorter
than `chunk_size = 2000` yields exactly one chunk; the 1900-character
text `'a' * 1900` is strictly shorter than 2000 yet yields two chunks,
because after the first window the cursor advances to
`2000 - 200 = 1800 < 1900` and a second pass emits the tail. -/
theorem chunkText_two_chunks_below_chunk_size :
    chunkText (List.replicate 1900 'a') 2000 200 3
      = some [List.replicate 1900 'a', List.replicate 100 'a'] ∧
    ¬ ∃ chunk, chunkText (List.replicate 1900 'a') 2000 200 3 = some [chunk] := by
  have hA : pyIsSpace 'a' = false := by decide
  have h18 : (1800 : ℤ).toNat = 1800 := rfl
  have hstrip : ∀ n : ℕ, pyStrip (List.replicate n 'a') = List.replicate n 'a' := by
    intro n
    simp [pyStrip, List.dropWhile_replicate, hA, List.reverse_replicate]
  have h1 : chunkText (List.replicate 1900 'a') 2000 200 3
      = some [List.replicate 1900 'a', List.replicate 100 'a'] := by
    show chunkLoop (List.replicate 1900 'a') 2000 200 (2 + 1) 0 [] = _
    rw [chunkLoop]
    norm_num [List.length_replicate, puncScan, pySlice, pyIdx, List.take_replicate,
      List.drop_replicate, hstrip, List.isEmpty_replicate, h18]
    show chunkLoop (List.replicate 1900 'a') 2000 200 (1 + 1) 1800 _ = _
    rw [chunkLoop]
    norm_num [List.length_replicate, pySlice, pyIdx, List.take_replicate,
      List.drop_replicate, hstrip, List.isEmpty_replicate, h18]
    show chunkLoop (List.replicate 1900 'a') 2000 200 (0 + 1) 3600 _ = _
    rw [chunkLoop]
    norm_num [List.length_replicate]
  refine ⟨h1, ?_⟩
  rintro ⟨chunk, hch⟩
  rw [h1, Option.some.injEq] at hch
  have hlen2 := congrArg List.length hch
  simp only [List.length_cons, List.length_nil] at hlen2
  omega

/-- C3 as amended: a non-whitespace-only text of length at most
`chunk_size - overlap = 1800` (rather than: of length less than
`chunk_size = 2000`) yields exactly one chunk, the trimmed whole text.
For such texts the single window covers everything, no sentence-marker
search runs (the window end `2000` is not before the text end), and the
advanced cursor `1800` is already at or past the end. -/
theorem chunkText_single_chunk_short_text (text : List Char) (hlen : text.length ≤ 1800)
    (hc : ∃ c ∈ text, pyIsSpace c = false) (fuel : ℕ) (hf : 2 ≤ fuel) :
    chunkText text 2000 200 fuel = some [pyStrip text] := by
  obtain ⟨k, rfl⟩ : ∃ k, fuel = k + 2 := ⟨fuel - 2, by omega⟩
  have hne : text ≠ [] := by
    obtain ⟨c, hcmem, _⟩ := hc
    intro h
    subst h
    simp at hcmem
  have hlpos : 0 < text.length := List.length_pos.mpr hne
  have h0 : (0 : ℤ) < (text.length : ℤ) := by exact_mod_cast hlpos
  have h2000 : ¬((0 : ℤ) + ((2000 : ℕ) : ℤ) < (text.length : ℤ)) := by omega
  have hidx2000 : pyIdx text.length ((0 : ℤ) + ((2000 : ℕ) : ℤ)) = text.length := by
    unfold pyIdx
    rw [if_neg (by omega : ¬((0 : ℤ) + ((2000 : ℕ) : ℤ) < 0))]
    have ht : ((0 : ℤ) + ((2000 : ℕ) : ℤ)).toNat = 2000 := by omega
    rw [ht]
    omega
  have hidx0 : pyIdx text.length 0 = 0 := by simp [pyIdx]
  have hslice : pySlice text 0 ((0 : ℤ) + ((2000 : ℕ) : ℤ)) = text := by
    unfold pySlice
    rw [hidx2000, hidx0, List.take_length, List.drop_zero]
  have hemp : (pyStrip text).isEmpty = false := by
    rcases h : (pyStrip text).isEmpty with _ | _
    · rfl
    · exact absurd (List.isEmpty_iff.mp h) (pyStrip_ne_nil hc)
  show chunkLoop text 2000 200 (k + 1 + 1) 0 [] = some [pyStrip text]
  rw [chunkLoop, if_pos h0]
  simp only [if_neg h2000, hslice, hemp, Bool.false_eq_true, if_false, List.nil_append]
  rw [chunkLoop,
    if_neg (show ¬((0 : ℤ) + ((2000 : ℕ) : ℤ) - ((200 : ℕ) : ℤ) < (text.length : ℤ)) by omega)]

/-- Witness for the amended C3: the one-character text "a". -/
theorem chunkText_single_chunk_short_text_witness :
    (['a'] : List Char).length ≤ 1800 ∧ (∃ c ∈ (['a'] : List Char), pyIsSpace c = false) ∧
    chunkText ['a'] 2000 200 2 = some [pyStrip ['a']] :=
  ⟨by decide, ⟨'a', by decide, by decide⟩,
    chunkText_single_chunk_short_text ['a'] (by decide) ⟨'a', by decide, by decide⟩ 2 (le_refl 2)⟩

/-- The ten-character text "a. b! cccc" separating the two behaviours in
claim C4: ". " occurs at position 1 and "! " at position 4, both inside
the window [0, 8). -/
def cexText4 : List Char := ['a', '.', ' ', 'b', '!', ' ', 'c', 'c', 'c', 'c']

/-- C4: counterexample. In the window [0, 8) of "a. b! cccc" (right edge
8 strictly before the text end 10) the latest marker occurrence over all
six kinds is "! " at position 4, so the claim demands the chunk end 6
(the value of the spec-side `specSentenceBreak`); the code instead takes
". " — the first marker kind in its fixed iteration order that occurs —
and ends the window at 3, as the produced chunks show (first chunk "a.",
not "a. b!"). -/
theorem puncScan_not_latest_marker :
    puncScan cexText4 0 8 markers = 3 ∧ specSentenceBreak cexText4 0 8 = 6 ∧
    occursAt cexText4 ['!', ' '] 0 8 4 ∧ (0 : ℤ) + 8 < (cexText4.length : ℤ) ∧
    chunkText cexText4 8 0 3 = some [['a', '.'], ['b', '!', ' ', 'c', 'c', 'c', 'c']] := by
  refine ⟨by decide, by decide, ?_, by decide, by decide⟩
  exact ⟨by decide, by decide, by decide⟩

/-- C4 as amended: when the window's right edge falls strictly before
the text end and some marker occurs in the window, `_chunk_text` ends
the window two past the latest occurrence of the FIRST marker kind, in
the code's fixed order ". ", ".\n", "! ", "!\n", "? ", "?\n", that
occurs in the window at all (rather than: the latest occurrence over all
six kinds). Formally: if the marker list splits as `ms₁ ++ m :: ms₂`
with no marker of `ms₁` occurring in the window `[start, start + csize)`
and `m` occurring somewhere in it, then the boundary scan returns
`i + 2` for `i` the largest occurrence position of `m`. -/
theorem puncScan_first_marker_latest_occurrence (text : List Char) (start csize : ℕ)
    (hwin : start + csize < text.length)
    (m : List Char) (ms₁ ms₂ : List (List Char)) (hsplit : markers = ms₁ ++ m :: ms₂)
    (hnone : ∀ m' ∈ ms₁, ∀ i, ¬ occursAt text m' start (start + csize) i)
    (hex : ∃ i, occursAt text m start (start + csize) i) :
    ∃ i, occursAt text m start (start + csize) i ∧
      (∀ j, occursAt text m start (start + csize) j → j ≤ i) ∧
      puncScan text (start : ℤ) (((start + csize : ℕ)) : ℤ) markers = (i : ℤ) + 2 := by
  have ha : start ≤ text.length := by omega
  have hb : start + csize ≤ text.length := by omega
  have hskip : ∀ m' ∈ ms₁, pyRfind text m' (start : ℤ) ((start + csize : ℕ) : ℤ) = -1 := by
    intro m' hm'
    rcases pyRfind_spec text m' start (start + csize) ha hb with ⟨hneg, _⟩ | ⟨i, _, hocc, _⟩
    · exact hneg
    · exact absurd hocc (hnone m' hm' i)
  rcases pyRfind_spec text m start (start + csize) ha hb with ⟨_, hnocc⟩ | ⟨i, heq, hocc, hmax⟩
  · obtain ⟨i, hocc⟩ := hex
    exact absurd hocc (hnocc i)
  · refine ⟨i, hocc, hmax, ?_⟩
    rw [hsplit, puncScan_skip text _ _ ms₁ (m :: ms₂) hskip]
    simp only [puncScan]
    rw [if_pos (by rw [heq]; omega), heq]

/-- Witness for the amended C4: the text "x. yz" with window [0, 4); the
first marker ". " occurs (only) at position 1, and the scan returns
`1 + 2 = 3`. -/
theorem puncScan_first_marker_latest_occurrence_witness :
    (0 + 4 < (['x', '.', ' ', 'y', 'z'] : List Char).length) ∧
    occursAt ['x', '.', ' ', 'y', 'z'] ['.', ' '] 0 (0 + 4) 1 ∧
    ∃ i, occursAt ['x', '.', ' ', 'y', 'z'] ['.', ' '] 0 (0 + 4) i ∧
      (∀ j, occursAt ['x', '.', ' ', 'y', 'z'] ['.', ' '] 0 (0 + 4) j → j ≤ i) ∧
      puncScan ['x', '.', ' ', 'y', 'z'] ((0 : ℕ) : ℤ) (((0 + 4 : ℕ)) : ℤ) markers = (i : ℤ) + 2 :=
  ⟨by decide, ⟨by decide, by decide, by decide⟩,
    puncScan_first_marker_latest_occurrence ['x', '.', ' ', 'y', 'z'] 0 4 (by decide)
      ['.', ' '] [] [['.', '\n'], ['!', ' '], ['!', '\n'], ['?', ' '], ['?', '\n']] rfl
      (by intro m' hm'; simp at hm')
      ⟨1, by decide, by decide, by decide⟩⟩

/-! ### Claims C5, C6, C7: the similarity ranker -/

/-- One-dimensional query vector used by the concrete ranking runs. -/
def qOne : List ℚ := [1]

/-- A corpus row whose vector `[2]` is positively parallel to `qOne`
(cosine similarity exactly 1) but not identical to it. -/
def rowParallel : PaperRow :=
  { id := "A", domain := some "physics", structuralEmbedding := some [2] }

/-- A corpus row whose vector is identical to `qOne`. -/
def rowIdentical : PaperRow :=
  { id := "B", domain := some "biology", structuralEmbedding := some [1] }

/-- A corpus row carrying the empty string as its domain label. -/
def rowEmptyDomain : PaperRow :=
  { id := "E", domain := some "", structuralEmbedding := some [1] }

/-- C5: counterexample. The claim says every `top_k ≤ 0` returns the
empty sequence; with `top_k = -1` and two eligible candidates the code
returns one result, because `similarities[:-1]` under Python slice
semantics keeps everything but the last element. -/
theorem findAnalogousPapers_negative_topk_nonempty :
    (eligibleCands qOne (filteredPapers [rowParallel, rowIdentical] none)).length = 2 ∧
    (findAnalogousPapers qOne [rowParallel, rowIdentical] (-1) none).length = 1 ∧
    findAnalogousPapers qOne [rowParallel, rowIdentical] (-1) none ≠ [] := by
  have h2 : (eligibleCands qOne (filteredPapers [rowParallel, rowIdentical] none)).length = 2 := by
    norm_num [eligibleCands, eligEntry, filteredPapers, npDot, qOne, rowParallel, rowIdentical,
      List.filterMap]
  have h1 : (findAnalogousPapers qOne [rowParallel, rowIdentical] (-1) none).length = 1 := by
    norm_num [findAnalogousPapers, filteredPapers, eligibleCands, eligEntry, npDot,
      List.insertionSort, List.orderedInsert, rankRel, simKey, pySliceTo, pyIdx, toMatchOut,
      qOne, rowParallel, rowIdentical, List.filterMap]
  exact ⟨h2, h1, fun hnil => by rw [hnil] at h1; simp at h1⟩

/-- C5 as amended: for `top_k ≥ 0` the result length is
`min top_k (number of eligible candidates)` — in particular `top_k = 0`
gives the empty sequence — while for `top_k < 0` Python slice semantics
keep the first `eligible + top_k` candidates (clamped at zero), not
none. The dimension hypothesis mirrors that `np.dot` only accepts
equal-length one-dimensional arrays. -/
theorem findAnalogousPapers_length_bound (q : List ℚ) (papers : List PaperRow)
    (excl : Option String) (topK : ℤ)
    (hdim : ∀ p ∈ papers, ∀ v, p.structuralEmbedding = some v → v ≠ [] → v.length = q.length) :
    (0 ≤ topK → (findAnalogousPapers q papers topK excl).length
        = min topK.toNat (eligibleCands q (filteredPapers papers excl)).length) ∧
    (topK < 0 → (findAnalogousPapers q papers topK excl).length
        = (eligibleCands q (filteredPapers papers excl)).length - (-topK).toNat) := by
  have hlen : (List.insertionSort rankRel (eligibleCands q (filteredPapers papers excl))).length
      = (eligibleCands q (filteredPapers papers excl)).length := List.length_insertionSort _ _
  constructor
  · intro hk
    simp only [findAnalogousPapers, List.length_map, pySliceTo, List.length_take, hlen, pyIdx]
    rw [if_neg (by omega)]
    omega
  · intro hk
    simp only [findAnalogousPapers, List.length_map, pySliceTo, List.length_take, hlen, pyIdx]
    rw [if_pos hk]
    omega

/-- Witness for the amended C5: one eligible candidate, `top_k = 5`,
result length `min 5 1 = 1`. -/
theorem findAnalogousPapers_length_bound_witness :
    (0 : ℤ) ≤ 5 ∧ (findAnalogousPapers qOne [rowParallel] 5 none).length
      = min (5 : ℤ).toNat (eligibleCands qOne (filteredPapers [rowParallel] none)).length :=
  ⟨by norm_num,
    (findAnalogousPapers_length_bound qOne [rowParallel] none 5
      (by
        intro p hp v hv hvne
        have hp' : p = rowParallel := by simpa using hp
        subst hp'
        have : some [(2 : ℚ)] = some v := hv
        have hv' : v = [(2 : ℚ)] := by simpa using this.symm
        subst hv'
        rfl)).1 (by norm_num)⟩

/-- C6: counterexample. The claim quantifies over every non-`None`
`exclude_domain`; for the non-`None` empty string, `if exclude_domain:`
is falsy, the filter is skipped, and a paper whose domain label equals
the excluded value "" appears in the result (even as its only entry). -/
theorem findAnalogousPapers_empty_exclude_no_filter :
    (findAnalogousPapers qOne [rowEmptyDomain] 1 (some "")).map MatchOut.domain = [some ""] ∧
    (findAnalogousPapers qOne [rowEmptyDomain] 1 (some "")).map MatchOut.paper_id = ["E"] := by
  constructor
  · norm_num [findAnalogousPapers, filteredPapers, eligibleCands, eligEntry, npDot,
      List.insertionSort, List.orderedInsert, rankRel, simKey, pySliceTo, pyIdx, toMatchOut,
      qOne, rowEmptyDomain, List.filterMap]
  · norm_num [findAnalogousPapers, filteredPapers, eligibleCands, eligEntry, npDot,
      List.insertionSort, List.orderedInsert, rankRel, simKey, pySliceTo, pyIdx, toMatchOut,
      qOne, rowEmptyDomain, List.filterMap]

/-- C6 as amended: for every nonempty (hence Python-truthy) exclusion
string, no returned row carries the excluded domain label, whatever its
raw similarity. -/
theorem findAnalogousPapers_excludes_domain (q : List ℚ) (papers : List PaperRow) (topK : ℤ)
    (s : String) (hs : s ≠ "") :
    ∀ r ∈ findAnalogousPapers q papers topK (some s), r.domain ≠ some s := by
  intro r hr
  simp only [findAnalogousPapers, List.mem_map] at hr
  obtain ⟨c, hc, rfl⟩ := hr
  rw [pySliceTo] at hc
  have hc' : c ∈ List.insertionSort rankRel (eligibleCands q (filteredPapers papers (some s))) :=
    List.take_subset _ _ hc
  have hc'' : c ∈ eligibleCands q (filteredPapers papers (some s)) :=
    (List.mem_insertionSort rankRel).mp hc'
  obtain ⟨p, hp, v, hemb, hvne, hq, hv, rfl⟩ := mem_eligibleCands.mp hc''
  simpa [toMatchOut] using domain_of_mem_filtered hs hp

/-- Witness for the amended C6: excluding "physics" from a corpus whose
only (and highest-similarity) candidate is labelled "physics". -/
theorem findAnalogousPapers_excludes_domain_witness :
    ("physics" ≠ "") ∧
    ∀ r ∈ findAnalogousPapers qOne [rowParallel] 1 (some "physics"), r.domain ≠ some "physics" :=
  ⟨by decide, findAnalogousPapers_excludes_domain qOne [rowParallel] 1 "physics" (by decide)⟩

/-- C7: counterexample. Every hypothesis of the claim holds: the corpus
holds exactly one candidate (`rowIdentical`, vector `[1]`) whose stored
vector is identical to the query `[1]` and of positive norm, `top_k = 1
≥ 1`, and no domain exclusion is applied. Yet that candidate is not
first — it does not appear at all — because `rowParallel` (vector `[2]`)
also has cosine similarity exactly 1, Python's sort is stable, and
`rowParallel` precedes it in the corpus. -/
theorem findAnalogousPapers_parallel_before_identical :
    (findAnalogousPapers qOne [rowParallel, rowIdentical] 1 none).map MatchOut.paper_id = ["A"] ∧
    rowIdentical.structuralEmbedding = some qOne ∧
    rowParallel.structuralEmbedding ≠ some qOne ∧
    rowIdentical.id = "B" := by
  refine ⟨?_, rfl, ?_, rfl⟩
  · norm_num [findAnalogousPapers, filteredPapers, eligibleCands, eligEntry, npDot,
      List.insertionSort, List.orderedInsert, rankRel, simKey, pySliceTo, pyIdx, toMatchOut,
      qOne, rowParallel, rowIdentical, List.filterMap]
  · simp only [rowParallel, qOne, ne_eq, Option.some.injEq]
    intro h
    have := List.head_eq_of_cons_eq h
    norm_num at this

/-- C7 as amended: under the claim's hypotheses (a corpus candidate
whose stored vector is identical to the query and has positive norm,
surviving any domain exclusion, and `top_k ≥ 1`) the FIRST ranked result
has cosine similarity exactly 1 — the identical candidate forces the
maximum attainable score, though a tied, positively parallel candidate
earlier in the corpus may be the one occupying the first slot — and
every returned row comes from a stored vector of positive norm (zero-
norm candidates are never returned). -/
theorem findAnalogousPapers_top_score_one (q : List ℚ) (papers : List PaperRow)
    (topK : ℤ) (excl : Option String) (pB : PaperRow)
    (hq : 0 < npDot q q) (hmem : pB ∈ papers) (hemb : pB.structuralEmbedding = some q)
    (hexcl : ∀ s, excl = some s → pB.domain ≠ some s) (hk : 1 ≤ topK)
    (hdim : ∀ p ∈ papers, ∀ v, p.structuralEmbedding = some v → v ≠ [] → v.length = q.length) :
    (∃ m ms, findAnalogousPapers q papers topK excl = m :: ms ∧
      cosineScore (npDot q q) m.simDot m.simNrm = 1) ∧
    ∀ r ∈ findAnalogousPapers q papers topK excl, 0 < r.simNrm := by
  have hqne : q ≠ [] := by
    intro h
    rw [h] at hq
    have : npDot [] [] = 0 := rfl
    rw [this] at hq
    exact lt_irrefl 0 hq
  have hBmem : pB ∈ filteredPapers papers excl := mem_filteredPapers hmem hexcl
  have hcB : (⟨pB, npDot q q, npDot q q⟩ : Cand) ∈ eligibleCands q (filteredPapers papers excl) :=
    mem_eligibleCands.mpr ⟨pB, hBmem, q, hemb, hqne, hq, hq, rfl⟩
  have hLS : List.insertionSort rankRel (eligibleCands q (filteredPapers papers excl)) ≠ [] := by
    intro h
    have := (List.mem_insertionSort rankRel).mpr hcB
    rw [h] at this
    simp at this
  obtain ⟨c, rest, hcons⟩ := List.exists_cons_of_ne_nil hLS
  have hlenpos :
      0 < (List.insertionSort rankRel (eligibleCands q (filteredPapers papers excl))).length := by
    rw [hcons]
    simp
  obtain ⟨j, hj⟩ : ∃ j,
      pyIdx (List.insertionSort rankRel (eligibleCands q (filteredPapers papers excl))).length topK
        = j + 1 := by
    unfold pyIdx
    rw [if_neg (by omega)]
    refine ⟨min topK.toNat
      (List.insertionSort rankRel (eligibleCands q (filteredPapers papers excl))).length - 1, ?_⟩
    omega
  have hslice : pySliceTo topK
      (List.insertionSort rankRel (eligibleCands q (filteredPapers papers excl)))
        = c :: rest.take j := by
    rw [pySliceTo, hj, hcons, List.take_succ_cons]
  have hkeyB : simKey ⟨pB, npDot q q, npDot q q⟩ = npDot q q := by
    simp only [simKey]
    rw [if_pos hq.le, sq, mul_div_assoc, div_self hq.ne', mul_one]
  have hgec : npDot q q ≤ simKey c := hkeyB ▸ head_simKey_max hcons _ hcB
  have hcL : c ∈ eligibleCands q (filteredPapers papers excl) :=
    (List.mem_insertionSort rankRel).mp (hcons ▸ List.mem_cons_self c rest)
  obtain ⟨p, hp, v, hembp, hvne, _, hvpos, hceq⟩ := mem_eligibleCands.mp hcL
  have hcs : (npDot q v) ^ 2 ≤ npDot q q * npDot v v := npDot_sq_le q v
  have hlec : simKey c ≤ npDot q q := by
    rw [hceq]
    simp only [simKey]
    by_cases hd : 0 ≤ npDot q v
    · rw [if_pos hd, div_le_iff hvpos]
      linarith
    · rw [if_neg hd]
      have hnn : 0 ≤ (npDot q v) ^ 2 / npDot v v := div_nonneg (sq_nonneg _) hvpos.le
      linarith
  have hkeyc : simKey c = npDot q q := le_antisymm hlec hgec
  have hd0 : 0 ≤ npDot q v := by
    by_contra hneg
    push_neg at hneg
    have hsqpos : 0 < (npDot q v) ^ 2 := by nlinarith [mul_pos (neg_pos.mpr hneg) (neg_pos.mpr hneg)]
    have : simKey c < 0 := by
      rw [hceq]
      simp only [simKey]
      rw [if_neg (not_le.mpr hneg)]
      have := div_pos hsqpos hvpos
      linarith
    rw [hkeyc] at this
    linarith
  have hd2 : (npDot q v) ^ 2 = npDot q q * npDot v v := by
    have hkc : (npDot q v) ^ 2 / npDot v v = npDot q q := by
      have : simKey c = (npDot q v) ^ 2 / npDot v v := by
        rw [hceq]
        simp only [simKey]
        rw [if_pos hd0]
      rw [← this, hkeyc]
    field_simp at hkc
    linarith
  have hscore : cosineScore (npDot q q) (npDot q v) (npDot v v) = 1 := by
    unfold cosineScore
    have hd2R : ((npDot q v : ℚ) : ℝ) ^ 2 = ((npDot q q : ℚ) : ℝ) * ((npDot v v : ℚ) : ℝ) := by
      exact_mod_cast hd2
    have hqR : (0 : ℝ) < ((npDot q q : ℚ) : ℝ) := by exact_mod_cast hq
    have hvR : (0 : ℝ) < ((npDot v v : ℚ) : ℝ) := by exact_mod_cast hvpos
    have hdR : (0 : ℝ) ≤ ((npDot q v : ℚ) : ℝ) := by exact_mod_cast hd0
    rw [show ((npDot q v : ℚ) : ℝ) = Real.sqrt (((npDot q v : ℚ) : ℝ) ^ 2) from
      (Real.sqrt_sq hdR).symm, hd2R, Real.sqrt_mul hqR.le]
    exact div_self (by positivity)
  constructor
  · refine ⟨toMatchOut c, (rest.take j).map toMatchOut, ?_, ?_⟩
    · rw [findAnalogousPapers, hslice, List.map_cons]
    · rw [hceq]
      simpa [toMatchOut] using hscore
  · intro r hr
    simp only [findAnalogousPapers, List.mem_map] at hr
    obtain ⟨c', hc', rfl⟩ := hr
    rw [pySliceTo] at hc'
    have hc'' : c' ∈ eligibleCands q (filteredPapers papers excl) :=
      (List.mem_insertionSort rankRel).mp (List.take_subset _ _ hc')
    obtain ⟨p', _, v', _, _, _, hv'pos, hceq'⟩ := mem_eligibleCands.mp hc''
    rw [hceq']
    simpa [toMatchOut] using hv'pos

/-- Witness for the amended C7: a single-row corpus holding exactly the
query vector; the first (only) result scores 1. -/
theorem findAnalogousPapers_top_score_one_witness :
    0 < npDot qOne qOne ∧ rowIdentical ∈ [rowIdentical] ∧
    rowIdentical.structuralEmbedding = some qOne ∧ (1 : ℤ) ≤ 1 ∧
    ((∃ m ms, findAnalogousPapers qOne [rowIdentical] 1 none = m :: ms ∧
        cosineScore (npDot qOne qOne) m.simDot m.simNrm = 1) ∧
      ∀ r ∈ findAnalogousPapers qOne [rowIdentical] 1 none, 0 < r.simNrm) :=
  ⟨by norm_num [npDot, qOne], by simp, rfl, le_refl 1,
    findAnalogousPapers_top_score_one qOne [rowIdentical] 1 none rowIdentical
      (by norm_num [npDot, qOne]) (by simp) rfl (fun s h => Option.noConfusion h) (le_refl 1)
      (by
        intro p hp v hv hvne
        have hp' : p = rowIdentical := by simpa using hp
        subst hp'
        have hv2 : some [(1 : ℚ)] = some v := hv
        have hv' : v = [(1 : ℚ)] := by simpa using hv2.symm
        subst hv'
        rfl)⟩

/-! ### Claim C2: schema default-fill -/

/-- C2: the claim that each missing schema field is defaulted to a value
of its declared type (empty string for string fields, empty list for
list fields) is false of the code, and the code contradicts its own
declared schema (the prompt declares `entities`, `state_variables`,
`constraints`, `failure_modes`, `key_equations_or_principles` as
arrays, and says to use empty arrays/strings as needed): the default
expression `"" if isinstance(schema.get(field, ""), str) else []` runs
only when `field not in schema`, in which case `schema.get(field, "")`
returns the str `""` and the `isinstance` test is always true, so every
missing field — the declared-array ones included — is set to the string
`""`; the `else []` branch is unreachable. On the empty oracle object,
all nine fields are present afterwards but `constraints` (a declared
list field) holds `""`, not `[]`. -/
theorem fillRequiredFields_defaults_all_to_string :
    fillRequiredFields [] = requiredFields.map (fun f => (f, JVal.str "")) ∧
    lookupField (fillRequiredFields []) "constraints" = some (JVal.str "") ∧
    lookupField (fillRequiredFields []) "constraints" ≠ some (JVal.arr []) :=
  ⟨by decide, by decide, by decide⟩

/-! ### Claim C8: the schema-to-text projection -/

/-- C8: confirmed. The canonical embedding text — the exact string
`embed_schema` hands to the embedding oracle — is a function of exactly
the four key fields: two schemas agreeing on `optimization_goal`,
`constraints`, `state_variables` and `failure_modes` produce identical
text whatever their other five fields hold; and the projection reads a
missing goal as `""` and missing list fields as `[]` (being a total
function, it never fails). -/
theorem embedSchemaText_four_fields (s₁ s₂ : Schema)
    (hog : s₁.optimization_goal = s₂.optimization_goal)
    (hcs : s₁.constraints = s₂.constraints)
    (hsv : s₁.state_variables = s₂.state_variables)
    (hfm : s₁.failure_modes = s₂.failure_modes) :
    embedSchemaText s₁ = embedSchemaText s₂ ∧
    embedSchemaText { s₁ with
        optimization_goal := some (s₁.optimization_goal.getD ""),
        constraints := some (s₁.constraints.getD []),
        state_variables := some (s₁.state_variables.getD []),
        failure_modes := some (s₁.failure_modes.getD []) }
      = embedSchemaText s₁ := by
  constructor
  · simp [embedSchemaText, hog, hcs, hsv, hfm]
  · simp [embedSchemaText]

/-- A schema carrying only a system name (all four key fields absent). -/
def schemaOnlyName : Schema := { system_name := some "predator-prey dynamics" }

/-- A schema carrying only a domain (all four key fields absent). -/
def schemaOnlyDomain : Schema := { domain := some "economics" }

/-- `schemaOnlyName` with the four key fields explicitly set to their
defaulted readings. -/
def schemaOnlyNameDefaulted : Schema :=
  { schemaOnlyName with
      optimization_goal := some (schemaOnlyName.optimization_goal.getD "")
      constraints := some (schemaOnlyName.constraints.getD [])
      state_variables := some (schemaOnlyName.state_variables.getD [])
      failure_modes := some (schemaOnlyName.failure_modes.getD []) }

/-- Witness for C8: two schemas sharing only the four key fields (all
absent) but differing in `system_name` and `domain`. -/
theorem embedSchemaText_four_fields_witness :
    embedSchemaText schemaOnlyName = embedSchemaText schemaOnlyDomain ∧
    embedSchemaText schemaOnlyNameDefaulted = embedSchemaText schemaOnlyName :=
  embedSchemaText_four_fields schemaOnlyName schemaOnlyDomain rfl rfl rfl rfl

/-! ### Claim C9: the storage write policy -/

/-- C9: confirmed. `_store_paper` makes exactly one fallback attempt on
a primary write failure — the same row with the vector re-encoded as the
textual literal `"[x1,...,xn]"` — and propagates the retry's error if it
also fails; `_store_chunks` wraps its single batch insert in no
`try`/`except`, so a chunk write failure surfaces immediately with no
second insert call. The write-trace component of the embedded functions
lists every insert call made. -/
theorem storePaper_two_attempt_policy
    (ins : PaperData → Option String) (insC : List ChunkRow → Option String)
    (paper_id title domain source : String) (source_id : Option String) (schema : Schema)
    (embedding : List ℚ) (chunks : List (List Char)) :
    (ins (primaryPaperData paper_id title domain source source_id schema embedding) = none →
      storePaper ins paper_id title domain source source_id schema embedding
        = (.ok (), [primaryPaperData paper_id title domain source source_id schema embedding])) ∧
    (∀ e, ins (primaryPaperData paper_id title domain source source_id schema embedding) = some e →
      ins (fallbackPaperData paper_id title domain source source_id schema embedding) = none →
      storePaper ins paper_id title domain source source_id schema embedding
        = (.ok (), [primaryPaperData paper_id title domain source source_id schema embedding,
            fallbackPaperData paper_id title domain source source_id schema embedding])) ∧
    (∀ e e₂,
      ins (primaryPaperData paper_id title domain source source_id schema embedding) = some e →
      ins (fallbackPaperData paper_id title domain source source_id schema embedding) = some e₂ →
      storePaper ins paper_id title domain source source_id schema embedding
        = (.error e₂, [primaryPaperData paper_id title domain source source_id schema embedding,
            fallbackPaperData paper_id title domain source source_id schema embedding])) ∧
    (fallbackPaperData paper_id title domain source source_id schema embedding).structural_embedding
      = EmbVal.txt (embeddingStr embedding) ∧
    (∀ e, insC (chunks.enum.map fun ic => ChunkRow.mk paper_id ic.1 ic.2) = some e →
      chunks ≠ [] →
      storeChunks insC paper_id chunks
        = (.error e, [chunks.enum.map fun ic => ChunkRow.mk paper_id ic.1 ic.2])) := by
  refine ⟨?_, ?_, ?_, rfl, ?_⟩
  · intro h
    simp only [storePaper]
    rw [h]
  · intro e he hf
    simp only [storePaper]
    rw [he, hf]
  · intro e e₂ he hf
    simp only [storePaper]
    rw [he, hf]
  · intro e he hne
    simp only [storeChunks]
    rw [if_neg (by simp [hne]), he]

/-- Witness for C9: both paper inserts fail (the second error "boom2" is
the one propagated, after exactly the primary and the one fallback
attempt), and a failing chunk batch insert surfaces at once. -/
theorem storePaper_two_attempt_policy_witness :
    storePaper (fun pd => if pd.structural_embedding = EmbVal.vec [1] then some "boom1"
        else some "boom2") "p" "t" "d" "s" none {} [1]
      = (.error "boom2", [primaryPaperData "p" "t" "d" "s" none {} [1],
          fallbackPaperData "p" "t" "d" "s" none {} [1]]) ∧
    storeChunks (fun _ => some "cboom") "p" [['x']]
      = (.error "cboom", [[ChunkRow.mk "p" 0 ['x']]]) :=
  ⟨(storePaper_two_attempt_policy
      (fun pd => if pd.structural_embedding = EmbVal.vec [1] then some "boom1" else some "boom2")
      (fun _ => some "cboom") "p" "t" "d" "s" none {} [1] [['x']]).2.2.1 "boom1" "boom2"
      (by norm_num [primaryPaperData])
      (by rw [if_neg (by simp [fallbackPaperData, primaryPaperData])]),
    (storePaper_two_attempt_policy
      (fun pd => if pd.structural_embedding = EmbVal.vec [1] then some "boom1" else some "boom2")
      (fun _ => some "cboom") "p" "t" "d" "s" none {} [1] [['x']]).2.2.2.2 "cboom" rfl
      (by simp)⟩

/-! ### Claim C10: the extraction length guard -/

/-- C10: confirmed. `extract_text_from_pdf` raises the fixed error (and
so never returns) whenever the concatenated extracted text strips to
fewer than 100 characters, and consequently every successful extraction
carries a text whose stripped length is at least 100 — the downstream
chunker never sees a successful extraction with empty or near-empty
text. (The guard sits after both the pdfplumber path and the PyPDF2
fallback, before chunking.) -/
theorem extractTextFromPdf_min_length_guard (pages : List (Option (List Char)))
    (title : List Char) (fuel : ℕ) :
    ((pyStrip (fullTextOfPages pages)).length < 100 →
      extractTextFromPdf pages title fuel
        = some (.error "PDF appears to be empty or unreadable")) ∧
    (∀ r, extractTextFromPdf pages title fuel = some (.ok r) →
      r.text = fullTextOfPages pages ∧ 100 ≤ (pyStrip r.text).length) := by
  constructor
  · intro h
    simp only [extractTextFromPdf]
    rw [if_pos (Or.inr h)]
  · intro r hr
    simp only [extractTextFromPdf] at hr
    by_cases hcond : (fullTextOfPages pages).isEmpty = true ∨
        (pyStrip (fullTextOfPages pages)).length < 100
    · rw [if_pos hcond] at hr
      exact absurd hr (by simp)
    · rw [if_neg hcond] at hr
      push_neg at hcond
      rcases hchunks : chunkText (fullTextOfPages pages) 2000 200 fuel with _ | cs
      · rw [hchunks] at hr
        exact absurd hr (by simp)
      · rw [hchunks] at hr
        simp only [Option.map_some', Option.some.injEq, Except.ok.injEq] at hr
        constructor
        · rw [← hr]
        · rw [← hr]
          exact hcond.2

/-- Witness for C10: a one-character page strips to length 1 < 100 and
the extraction reports the fixed error. -/
theorem extractTextFromPdf_min_length_guard_witness :
    (pyStrip (fullTextOfPages [some ['x']])).length < 100 ∧
    extractTextFromPdf [some ['x']] [] 1
      = some (.error "PDF appears to be empty or unreadable") :=
  ⟨by decide, (extractTextFromPdf_min_length_guard [some ['x']] [] 1).1 (by decide)⟩
